import Mathlib

/-!
Shallow embedding of `ApiRegistryMulticast.go` from
`ZacharyDuve/go-distributed-api-registry`.

Times and durations (`time.Time`, `time.Duration`) are modelled as `Int`
(nanoseconds).  A host IP (`net.IP`) is modelled by its string rendering,
because the only comparison the code performs on IPs is
`HostIP().String() == ...` (in `getRegMatch`).  The two Go maps are
modelled as association lists (key order is irrelevant to every claim;
per-name insertion order of registrations is preserved exactly).
-/

namespace GoApiRegistry

/-- Wire/size constants from the Go source. -/
def RegistrationMessageSizeBytes : Nat := 1400

/-- `RegistrationLifeSpan = time.Second * 90`, in nanoseconds. -/
def RegistrationLifeSpan : Int := 90000000000

/-- `RegistrationUpdateInterval = time.Second * 30`, in nanoseconds. -/
def RegistrationUpdateInterval : Int := 30000000000

/-- Models the `Api` interface as realised by `apiImpl`: name, version,
host IP (string rendering) and host port.  The listener constructs it as
`apiImpl{name: message.ApiName, version: message.ApiVersion,
remoteIP: rAddr.IP, remotePort: message.ApiPort}`. -/
structure Api where
  name : String
  version : String
  hostIP : String
  hostPort : Int
  deriving DecidableEq, Repr

/-- Models `apiRegistration`: the Api, the time it was last (re)registered
and the lifespan recorded at first sighting. -/
structure apiRegistration where
  api : Api
  timeRegistered : Int
  lifeSpan : Int
  deriving DecidableEq, Repr

/-- Models `ownedApi`: a locally advertised service. -/
structure ownedApi where
  name : String
  version : String
  port : Int
  deriving DecidableEq, Repr

/-- Models `apiRegisterMessageJSON`: the decoded wire message. -/
structure apiRegisterMessageJSON where
  ApiName : String
  ApiVersion : String
  ApiPort : Int
  LifeSpan : Int
  deriving DecidableEq, Repr

/-- Association-list lookup, modelling `m[k]` (presence-aware form). -/
def lookupKey {α : Type} : List (String × α) → String → Option α
  | [], _ => none
  | e :: es, k => if e.1 = k then some e.2 else lookupKey es k

/-- Association-list update, modelling `m[k] = v`. -/
def setKey {α : Type} : List (String × α) → String → α → List (String × α)
  | [], k, v => [(k, v)]
  | e :: es, k, v => if e.1 = k then (k, v) :: es else e :: setKey es k v

/-- Association-list removal, modelling `delete(m, k)`. -/
def removeKey {α : Type} : List (String × α) → String → List (String × α)
  | [], _ => []
  | e :: es, k => if e.1 = k then removeKey es k else e :: removeKey es k

/-- The remote half of the store: `apiRegs map[string][]*apiRegistration`. -/
abbrev RemoteMap := List (String × List apiRegistration)

/-- The owned half of the store: `ownedRegs map[string]*ownedApi`. -/
abbrev OwnedMap := List (String × ownedApi)

/-- `this.apiRegs[name]` with Go's zero value (`nil` slice) for a missing
key, as used by `GetApisByApiName` and `cleanupExpiredRegLoop`. -/
def regsFor (m : RemoteMap) (name : String) : List apiRegistration :=
  (lookupKey m name).getD []

/-- The exact 4-tuple comparison performed by `getRegMatch`:
`api.Name() == curReg.api.Name() && api.Version() == ... &&
api.HostIP().String() == ... && api.HostPort() == ...`. -/
def apiMatches (a b : Api) : Bool :=
  a.name == b.name && a.version == b.version &&
    a.hostIP == b.hostIP && a.hostPort == b.hostPort

/-- Models `getRegMatch`: first stored registration matching the 4-tuple. -/
def getRegMatch (api : Api) : List apiRegistration → Option apiRegistration
  | [] => none
  | r :: rs => if apiMatches api r.api then some r else getRegMatch api rs

/-- The in-place mutation `matchReg.timeRegistered = time.Now()` performed
by `updateApis` on the registration returned by `getRegMatch`: the first
matching element of the slice gets its timestamp replaced, every other
field and element is untouched. -/
def refreshFirst (api : Api) (now : Int) :
    List apiRegistration → List apiRegistration
  | [] => []
  | r :: rs =>
      if apiMatches api r.api then { r with timeRegistered := now } :: rs
      else r :: refreshFirst api now rs

/-- Models `updateApis(api, lifespan)` executed at time `now`. -/
def updateApis (m : RemoteMap) (api : Api) (lifespan now : Int) : RemoteMap :=
  match lookupKey m api.name with
  | none => setKey m api.name [⟨api, now, lifespan⟩]
  | some apisForName =>
      match getRegMatch api apisForName with
      | some _ => setKey m api.name (refreshFirst api now apisForName)
      | none => setKey m api.name (apisForName ++ [⟨api, now, lifespan⟩])

/-- Models `GetApisByApiName(name)` at query time `now`: the Go loop
appends `curReg.api` to an initially empty slice whenever
`curReg.timeRegistered.Add(curReg.lifeSpan).After(now)`. -/
def getApisByApiName (m : RemoteMap) (name : String) (now : Int) : List Api :=
  (regsFor m name).foldl
    (fun apis r =>
      if now < r.timeRegistered + r.lifeSpan then apis ++ [r.api] else apis)
    []

/-- Models `GetAvailableApis()` at query time `now`: for every key of the
remote map, append that key's `GetApisByApiName` result. -/
def getAvailableApis (m : RemoteMap) (now : Int) : List Api :=
  m.foldl (fun allApis e => allApis ++ getApisByApiName m e.1 now) []

/-- Models `findExpiredApiRegs()` at time `now`: every stored registration
with `curReg.timeRegistered.Add(curReg.lifeSpan).Before(now)`. -/
def findExpiredApiRegs (m : RemoteMap) (now : Int) : List apiRegistration :=
  m.foldl
    (fun acc e =>
      acc ++ e.2.filter (fun r => decide (r.timeRegistered + r.lifeSpan < now)))
    []

/-- One iteration of the inner rebuild loop of `cleanupExpiredRegLoop` for
one expired registration: rebuild that registration's name's slice keeping
only entries with `timeRegistered + lifeSpan > now`, storing the rebuilt
slice when non-empty and deleting the key otherwise. -/
def sweepName (m : RemoteMap) (name : String) (now : Int) : RemoteMap :=
  let newRegsForName :=
    (regsFor m name).filter (fun r => decide (now < r.timeRegistered + r.lifeSpan))
  if newRegsForName.length > 0 then setKey m name newRegsForName
  else removeKey m name

/-- One full cleanup sweep (one tick of `cleanupExpiredRegLoop`) executed
at time `now`: collect the expired registrations, then rebuild each
expired registration's name's slice. -/
def cleanupSweep (m : RemoteMap) (now : Int) : RemoteMap :=
  (findExpiredApiRegs m now).foldl (fun acc r => sweepName acc r.api.name now) m

/-- Outcome environment for one call of `sendApiRegistration`: the results
of the externally-determined steps (`net.DialUDP`, the JSON encode and its
produced buffer length, `conn.Write`).  The JSON encoding itself lives in
`encoding/json` and the message type's tags outside this file, so the
encoded buffer length is carried as data. -/
structure SendEnv where
  dialErr : Option String
  encodeErr : Option String
  encodedLen : Nat
  writeErr : Option String
  deriving Repr

/-- The size-violation error message built by
`fmt.Sprint("Message size for", name, version, "exceeds max length of",
RegistrationMessageSizeBytes, "bytes")`; `fmt.Sprint` inserts a space only
between two non-string operands, so everything is concatenated directly. -/
def messageTooLargeErr (name version : String) : String :=
  "Message size for" ++ name ++ version ++ "exceeds max length of" ++ "1400" ++ "bytes"

/-- Models `sendApiRegistration(name, version, port)`.  Returns the error
result together with a flag recording whether `conn.Write` was reached
(whether anything was handed to the socket). -/
def sendApiRegistration (env : SendEnv) (name version : String) (_port : Int) :
    Option String × Bool :=
  match env.dialErr with
  | some e => (some e, false)
  | none =>
      match env.encodeErr with
      | some e => (some e, false)
      | none =>
          if env.encodedLen > RegistrationMessageSizeBytes then
            (some (messageTooLargeErr name version), false)
          else (env.writeErr, true)

/-- The whole registry state: both maps of `multicastApiRegistry`. -/
structure RegistryState where
  apiRegs : RemoteMap
  ownedRegs : OwnedMap
  deriving Repr

/-- Models `ownsApi(name)`. -/
def ownsApi (s : RegistryState) (name : String) : Bool :=
  (lookupKey s.ownedRegs name).isSome

/-- Models `RegisterApi(name, version, port)`.  Returns the state after
the call, the returned error (`none` = `nil`), and whether a socket write
was reached. -/
def RegisterApi (env : SendEnv) (s : RegistryState)
    (name version : String) (port : Int) :
    RegistryState × Option String × Bool :=
  if name = "" then
    (s, some "name was empty and name is a required parameter", false)
  else if version = "" then
    (s, some "version was empty and version is a required parameter", false)
  else if ownsApi s name then (s, none, false)
  else
    let sendOut := sendApiRegistration env name version port
    match sendOut.1 with
    | none =>
        ({ s with ownedRegs := setKey s.ownedRegs name ⟨name, version, port⟩ },
          none, sendOut.2)
    | some e => (s, some e, sendOut.2)

/-- One iteration of `listenMutlicast` executed at time `now`: on receive
error or decode error the state is unchanged; on decode success an `Api`
is built from the decoded name/version/port and the sender's source IP and
`updateApis` is called with the decoded lifespan.  `recvErr` is the
receive outcome; `decoded` is the JSON decode outcome. -/
def listenMutlicastIter (m : RemoteMap) (recvErr : Bool) (senderIP : String)
    (decoded : Option apiRegisterMessageJSON) (now : Int) : RemoteMap :=
  if recvErr then m
  else
    match decoded with
    | none => m
    | some message =>
        updateApis m
          ⟨message.ApiName, message.ApiVersion, senderIP, message.ApiPort⟩
          message.LifeSpan now

/-! ### Association-list (Go map) lemmas -/

theorem lookupKey_setKey_self {α : Type} (l : List (String × α)) (k : String) (v : α) :
    lookupKey (setKey l k v) k = some v := by
  induction l with
  | nil => simp [setKey, lookupKey]
  | cons e es ih =>
      by_cases h : e.1 = k
      · simp [setKey, h, lookupKey]
      · simp [setKey, h, lookupKey, ih]

theorem lookupKey_setKey_ne {α : Type} (l : List (String × α)) (k : String) (v : α)
    (n : String) (h : n ≠ k) : lookupKey (setKey l k v) n = lookupKey l n := by
  induction l with
  | nil => simp [setKey, lookupKey, Ne.symm h]
  | cons e es ih =>
      by_cases he : e.1 = k
      · have : ¬ k = n := fun hk => h hk.symm
        simp [setKey, he, lookupKey, this]
      · by_cases hn : e.1 = n
        · simp [setKey, he, lookupKey, hn, h]
        · simp [setKey, he, lookupKey, hn, ih]

theorem lookupKey_removeKey_self {α : Type} (l : List (String × α)) (k : String) :
    lookupKey (removeKey l k) k = none := by
  induction l with
  | nil => simp [removeKey, lookupKey]
  | cons e es ih =>
      by_cases h : e.1 = k
      · simp [removeKey, h, ih]
      · simp [removeKey, h, lookupKey, ih]

theorem lookupKey_removeKey_ne {α : Type} (l : List (String × α)) (k : String)
    (n : String) (h : n ≠ k) : lookupKey (removeKey l k) n = lookupKey l n := by
  induction l with
  | nil => simp [removeKey, lookupKey]
  | cons e es ih =>
      by_cases he : e.1 = k
      · have : ¬ e.1 = n := fun hn => h (hn ▸ he)
        simp [removeKey, he, lookupKey, this, ih, Ne.symm h]
      · simp [removeKey, he, lookupKey, ih]

theorem lookupKey_mem {α : Type} {l : List (String × α)} {k : String} {v : α}
    (h : lookupKey l k = some v) : (k, v) ∈ l := by
  induction l with
  | nil => simp [lookupKey] at h
  | cons e es ih =>
      obtain ⟨k1, v1⟩ := e
      by_cases he : k1 = k
      · subst he
        simp [lookupKey] at h
        simp [h]
      · simp [lookupKey, he] at h
        exact List.mem_cons_of_mem _ (ih h)

/-! ### 4-tuple matching and `getRegMatch` lemmas -/

theorem apiMatches_eq_true_iff (a b : Api) : apiMatches a b = true ↔ a = b := by
  cases a
  cases b
  simp [apiMatches, Api.mk.injEq, and_assoc]

theorem apiMatches_self (a : Api) : apiMatches a a = true := by
  simp [apiMatches_eq_true_iff]

theorem getRegMatch_eq_none_iff (api : Api) (regs : List apiRegistration) :
    getRegMatch api regs = none ↔ ∀ r ∈ regs, apiMatches api r.api = false := by
  induction regs with
  | nil => simp [getRegMatch]
  | cons r rs ih =>
      by_cases h : apiMatches api r.api = true
      · simp [getRegMatch, h]
      · simp only [Bool.not_eq_true] at h
        simp [getRegMatch, h, ih]

theorem getRegMatch_append_of_none (api : Api) (l1 l2 : List apiRegistration)
    (h : getRegMatch api l1 = none) :
    getRegMatch api (l1 ++ l2) = getRegMatch api l2 := by
  induction l1 with
  | nil => simp
  | cons r rs ih =>
      by_cases hm : apiMatches api r.api = true
      · simp [getRegMatch, hm] at h
      · simp only [Bool.not_eq_true] at hm
        simp [getRegMatch, hm] at h ⊢
        exact ih h

theorem refreshFirst_of_none (api : Api) (now : Int) (regs : List apiRegistration)
    (h : getRegMatch api regs = none) : refreshFirst api now regs = regs := by
  induction regs with
  | nil => rfl
  | cons r rs ih =>
      by_cases hm : apiMatches api r.api = true
      · simp [getRegMatch, hm] at h
      · simp only [Bool.not_eq_true] at hm
        simp [getRegMatch, hm] at h
        simp [refreshFirst, hm, ih h]

theorem refreshFirst_append_of_none (api : Api) (now : Int)
    (l1 l2 : List apiRegistration) (h : getRegMatch api l1 = none) :
    refreshFirst api now (l1 ++ l2) = l1 ++ refreshFirst api now l2 := by
  induction l1 with
  | nil => simp
  | cons r rs ih =>
      by_cases hm : apiMatches api r.api = true
      · simp [getRegMatch, hm] at h
      · simp only [Bool.not_eq_true] at hm
        simp [getRegMatch, hm] at h
        simp [refreshFirst, hm, ih h]

theorem refreshFirst_spec (api : Api) (now : Int) (regs : List apiRegistration)
    (r0 : apiRegistration) (h : getRegMatch api regs = some r0) :
    ∃ i, ∃ hi : i < regs.length,
      regs.get ⟨i, hi⟩ = r0 ∧ apiMatches api r0.api = true ∧
      refreshFirst api now regs = regs.set i { r0 with timeRegistered := now } := by
  induction regs with
  | nil => simp [getRegMatch] at h
  | cons r rs ih =>
      by_cases hm : apiMatches api r.api = true
      · simp [getRegMatch, hm] at h
        subst h
        exact ⟨0, by simp, by simp, hm, by simp [refreshFirst, hm, List.set]⟩
      · simp only [Bool.not_eq_true] at hm
        simp [getRegMatch, hm] at h
        obtain ⟨i, hi, hget, hmatch, heq⟩ := ih h
        refine ⟨i + 1, by simpa using Nat.succ_lt_succ hi, ?_, hmatch, ?_⟩
        · simpa using hget
        · simp [refreshFirst, hm, heq, List.set]

theorem getRegMatch_refreshFirst (api : Api) (now : Int)
    (regs : List apiRegistration) (r0 : apiRegistration)
    (h : getRegMatch api regs = some r0) :
    getRegMatch api (refreshFirst api now regs) =
      some { r0 with timeRegistered := now } := by
  induction regs with
  | nil => simp [getRegMatch] at h
  | cons r rs ih =>
      by_cases hm : apiMatches api r.api = true
      · simp [getRegMatch, hm] at h
        subst h
        simp [refreshFirst, hm, getRegMatch]
      · simp only [Bool.not_eq_true] at hm
        simp [getRegMatch, hm] at h
        simp [refreshFirst, hm, getRegMatch, ih h]

theorem map_api_refreshFirst (api : Api) (now : Int) (regs : List apiRegistration) :
    (refreshFirst api now regs).map (fun r => r.api) = regs.map (fun r => r.api) := by
  induction regs with
  | nil => rfl
  | cons r rs ih =>
      by_cases hm : apiMatches api r.api = true
      · simp [refreshFirst, hm]
      · simp only [Bool.not_eq_true] at hm
        simp [refreshFirst, hm, ih]

/-! ### The no-duplicate-4-tuple invariant -/

/-- No two registrations of one slice share the 4-tuple. -/
def dupFreeRegs (regs : List apiRegistration) : Prop :=
  (regs.map (fun r => r.api)).Pairwise (fun a b => apiMatches a b = false)

/-- The store invariant: every name's slice is free of duplicate 4-tuples. -/
def storeDupFree (m : RemoteMap) : Prop := ∀ n, dupFreeRegs (regsFor m n)

theorem apiMatches_eq_false_iff (a b : Api) : apiMatches a b = false ↔ a ≠ b := by
  constructor
  · intro h hab
    subst hab
    rw [apiMatches_self a] at h
    cases h
  · intro h
    cases hm : apiMatches a b
    · rfl
    · exact absurd ((apiMatches_eq_true_iff a b).mp hm) h

theorem dupFreeRegs_nil : dupFreeRegs [] := by
  simp [dupFreeRegs]

theorem dupFreeRegs_tail {r : apiRegistration} {rs : List apiRegistration}
    (h : dupFreeRegs (r :: rs)) : dupFreeRegs rs := by
  unfold dupFreeRegs at h ⊢
  rw [List.map_cons, List.pairwise_cons] at h
  exact h.2

theorem dupFreeRegs_append_new (regs : List apiRegistration) (x : apiRegistration)
    (hdup : dupFreeRegs regs) (h : ∀ r ∈ regs, apiMatches x.api r.api = false) :
    dupFreeRegs (regs ++ [x]) := by
  unfold dupFreeRegs at *
  rw [List.map_append, List.pairwise_append]
  refine ⟨hdup, by simp, ?_⟩
  intro a ha b hb
  simp only [List.map_cons, List.map_nil, List.mem_singleton] at hb
  subst hb
  obtain ⟨r, hr, rfl⟩ := List.mem_map.mp ha
  rw [apiMatches_eq_false_iff]
  exact fun hEq => ((apiMatches_eq_false_iff _ _).mp (h r hr)) hEq.symm

theorem dupFreeRegs_refreshFirst (api : Api) (now : Int)
    (regs : List apiRegistration) (hdup : dupFreeRegs regs) :
    dupFreeRegs (refreshFirst api now regs) := by
  unfold dupFreeRegs at *
  rw [map_api_refreshFirst]
  exact hdup

/-! ### Map-level characterisation of `updateApis` -/

theorem updateApis_lookup_ne (m : RemoteMap) (api : Api) (ls now : Int)
    (n : String) (h : n ≠ api.name) :
    lookupKey (updateApis m api ls now) n = lookupKey m n := by
  unfold updateApis
  cases hl : lookupKey m api.name with
  | none => exact lookupKey_setKey_ne m api.name _ n h
  | some regs =>
      dsimp only
      cases hm : getRegMatch api regs with
      | some r => exact lookupKey_setKey_ne m api.name _ n h
      | none => exact lookupKey_setKey_ne m api.name _ n h

theorem updateApis_regsFor_none (m : RemoteMap) (api : Api) (ls now : Int)
    (h : getRegMatch api (regsFor m api.name) = none) :
    regsFor (updateApis m api ls now) api.name =
      regsFor m api.name ++ [⟨api, now, ls⟩] := by
  unfold updateApis
  cases hl : lookupKey m api.name with
  | none => simp [regsFor, hl, lookupKey_setKey_self]
  | some regs =>
      rw [regsFor, hl] at h
      simp only [Option.getD_some] at h
      dsimp only
      rw [h]
      simp [regsFor, hl, lookupKey_setKey_self]

theorem updateApis_regsFor_some (m : RemoteMap) (api : Api) (ls now : Int)
    (r0 : apiRegistration) (h : getRegMatch api (regsFor m api.name) = some r0) :
    regsFor (updateApis m api ls now) api.name =
      refreshFirst api now (regsFor m api.name) := by
  unfold updateApis
  cases hl : lookupKey m api.name with
  | none =>
      rw [regsFor, hl] at h
      simp [getRegMatch] at h
  | some regs =>
      rw [regsFor, hl] at h
      simp only [Option.getD_some] at h
      dsimp only
      rw [h]
      simp [regsFor, hl, lookupKey_setKey_self]

theorem storeDupFree_updateApis (m : RemoteMap) (api : Api) (ls now : Int)
    (hdup : storeDupFree m) : storeDupFree (updateApis m api ls now) := by
  intro n
  by_cases hn : n = api.name
  · subst hn
    cases hm : getRegMatch api (regsFor m api.name) with
    | none =>
        rw [updateApis_regsFor_none m api ls now hm]
        refine dupFreeRegs_append_new _ _ (hdup api.name) ?_
        exact (getRegMatch_eq_none_iff api (regsFor m api.name)).mp hm
    | some r0 =>
        rw [updateApis_regsFor_some m api ls now r0 hm]
        exact dupFreeRegs_refreshFirst api now _ (hdup api.name)
  · rw [regsFor, updateApis_lookup_ne m api ls now n hn]
    exact hdup n

/-! ### Uniqueness of the matching registration -/

theorem filter_matches_refreshFirst (api : Api) (now : Int)
    (regs : List apiRegistration) (r0 : apiRegistration)
    (hdup : dupFreeRegs regs) (h : getRegMatch api regs = some r0) :
    (refreshFirst api now regs).filter (fun r => apiMatches api r.api) =
      [{ r0 with timeRegistered := now }] := by
  induction regs with
  | nil => simp [getRegMatch] at h
  | cons r rs ih =>
      by_cases hm : apiMatches api r.api = true
      · simp [getRegMatch, hm] at h
        subst h
        have hapi : api = r.api := (apiMatches_eq_true_iff api r.api).mp hm
        have hpt := hdup
        unfold dupFreeRegs at hpt
        rw [List.map_cons, List.pairwise_cons] at hpt
        have hnone : ∀ x ∈ rs, apiMatches api x.api = false := by
          intro x hx
          rw [hapi]
          exact hpt.1 x.api (List.mem_map.mpr ⟨x, hx, rfl⟩)
        have hfil : rs.filter (fun x => apiMatches api x.api) = [] := by
          rw [List.filter_eq_nil_iff]
          intro x hx
          simp [hnone x hx]
        simp [refreshFirst, hm, List.filter, hfil]
      · simp only [Bool.not_eq_true] at hm
        simp [getRegMatch, hm] at h
        have := ih (dupFreeRegs_tail hdup) h
        simp [refreshFirst, hm, List.filter, this]

/-! ### Claim C1 -/

/-- C1: `updateApis` is an upsert on the announcement's name: when a stored
registration matches the exact 4-tuple, only that registration's timestamp is
set to now; otherwise a new registration with timestamp now is appended to
the name's slice.  Consequently two announcements with an identical 4-tuple
received at times `t1` and `t2` leave exactly one matching registration,
whose timestamp is the later arrival `t2`, and a store free of duplicate
4-tuples stays free of them. -/
theorem updateApis_upsert_spec (m : RemoteMap) (api : Api) (ls t1 ls2 t2 : Int)
    (hdup : storeDupFree m) :
    (∀ r0, getRegMatch api (regsFor m api.name) = some r0 →
        ∃ i, ∃ hi : i < (regsFor m api.name).length,
          (regsFor m api.name).get ⟨i, hi⟩ = r0 ∧
          regsFor (updateApis m api ls t1) api.name =
            (regsFor m api.name).set i { r0 with timeRegistered := t1 }) ∧
    (getRegMatch api (regsFor m api.name) = none →
        regsFor (updateApis m api ls t1) api.name =
          regsFor m api.name ++ [⟨api, t1, ls⟩]) ∧
    storeDupFree (updateApis m api ls t1) ∧
    ((regsFor (updateApis (updateApis m api ls t1) api ls2 t2) api.name).filter
        (fun r => apiMatches api r.api)).map (fun r => r.timeRegistered) = [t2] := by
  refine ⟨?_, ?_, ?_, ?_⟩
  · intro r0 h
    obtain ⟨i, hi, hget, hmatch, heq⟩ :=
      refreshFirst_spec api t1 (regsFor m api.name) r0 h
    refine ⟨i, hi, hget, ?_⟩
    rw [updateApis_regsFor_some m api ls t1 r0 h]
    exact heq
  · exact updateApis_regsFor_none m api ls t1
  · exact storeDupFree_updateApis m api ls t1 hdup
  · cases hm : getRegMatch api (regsFor m api.name) with
    | none =>
        have h1 : regsFor (updateApis m api ls t1) api.name =
            regsFor m api.name ++ [⟨api, t1, ls⟩] :=
          updateApis_regsFor_none m api ls t1 hm
        have hdup1 : dupFreeRegs (regsFor (updateApis m api ls t1) api.name) :=
          storeDupFree_updateApis m api ls t1 hdup api.name
        have hmatch1 : getRegMatch api (regsFor (updateApis m api ls t1) api.name) =
            some ⟨api, t1, ls⟩ := by
          rw [h1, getRegMatch_append_of_none api _ _ hm]
          simp [getRegMatch, apiMatches_self]
        rw [updateApis_regsFor_some _ api ls2 t2 _ hmatch1,
          filter_matches_refreshFirst api t2 _ _ hdup1 hmatch1]
        simp
    | some r0 =>
        have h1 := updateApis_regsFor_some m api ls t1 r0 hm
        have hdup1 : dupFreeRegs (regsFor (updateApis m api ls t1) api.name) :=
          storeDupFree_updateApis m api ls t1 hdup api.name
        have hmatch1 : getRegMatch api (regsFor (updateApis m api ls t1) api.name) =
            some { r0 with timeRegistered := t1 } := by
          rw [h1]
          exact getRegMatch_refreshFirst api t1 _ r0 hm
        rw [updateApis_regsFor_some _ api ls2 t2 _ hmatch1,
          filter_matches_refreshFirst api t2 _ _ hdup1 hmatch1]
        simp

/-- Witness for C1 at a concrete input: two announcements of the same
4-tuple at times 1 and 3 leave exactly one matching registration with
timestamp 3. -/
theorem updateApis_upsert_spec_witness :
    ((regsFor (updateApis (updateApis [] ⟨"s", "1", "10.0.0.1", 80⟩ 5 1)
          ⟨"s", "1", "10.0.0.1", 80⟩ 7 3) "s").filter
        (fun r => apiMatches ⟨"s", "1", "10.0.0.1", 80⟩ r.api)).map
      (fun r => r.timeRegistered) = [3] := by
  have hdup : storeDupFree ([] : RemoteMap) := by
    intro n
    simp [regsFor, lookupKey, dupFreeRegs]
  exact (updateApis_upsert_spec [] ⟨"s", "1", "10.0.0.1", 80⟩ 5 1 7 3 hdup).2.2.2

/-! ### Claim C9 -/

/-- C9: when an inbound announcement's 4-tuple matches an existing remote
registration, the upsert refreshes only that registration's timestamp: the
stored lifespan keeps its original value (the announcement's lifespan `ls`
does not occur in the result), the registration's Api is unchanged, every
other registration of the slice is unchanged (`List.set` at the matching
index), and every other name's slice is untouched. -/
theorem updateApis_refresh_frame (m : RemoteMap) (api : Api) (ls now : Int)
    (r0 : apiRegistration)
    (hmatch : getRegMatch api (regsFor m api.name) = some r0) :
    (∀ n, n ≠ api.name → lookupKey (updateApis m api ls now) n = lookupKey m n) ∧
    ∃ i, ∃ hi : i < (regsFor m api.name).length,
      (regsFor m api.name).get ⟨i, hi⟩ = r0 ∧ apiMatches api r0.api = true ∧
      regsFor (updateApis m api ls now) api.name =
        (regsFor m api.name).set i ⟨r0.api, now, r0.lifeSpan⟩ := by
  refine ⟨fun n hn => updateApis_lookup_ne m api ls now n hn, ?_⟩
  obtain ⟨i, hi, hget, hm2, heq⟩ :=
    refreshFirst_spec api now (regsFor m api.name) r0 hmatch
  refine ⟨i, hi, hget, hm2, ?_⟩
  rw [updateApis_regsFor_some m api ls now r0 hmatch, heq]

/-- Witness for C9 at a concrete input: a re-announcement with a different
lifespan (99) of the stored tuple leaves the stored lifespan (9) in place
and other names' entries untouched. -/
theorem updateApis_refresh_frame_witness :
    lookupKey
        (updateApis [("s", [⟨⟨"s", "1", "10.0.0.1", 80⟩, 0, 9⟩]),
            ("t", [⟨⟨"t", "2", "10.0.0.2", 81⟩, 0, 9⟩])]
          ⟨"s", "1", "10.0.0.1", 80⟩ 99 4) "t" =
      lookupKey [("s", [⟨⟨"s", "1", "10.0.0.1", 80⟩, 0, 9⟩]),
          ("t", [⟨⟨"t", "2", "10.0.0.2", 81⟩, 0, 9⟩])] "t" ∧
    regsFor
        (updateApis [("s", [⟨⟨"s", "1", "10.0.0.1", 80⟩, 0, 9⟩]),
            ("t", [⟨⟨"t", "2", "10.0.0.2", 81⟩, 0, 9⟩])]
          ⟨"s", "1", "10.0.0.1", 80⟩ 99 4) "s" =
      [⟨⟨"s", "1", "10.0.0.1", 80⟩, 4, 9⟩] := by
  have h := updateApis_refresh_frame
    [("s", [⟨⟨"s", "1", "10.0.0.1", 80⟩, 0, 9⟩]),
      ("t", [⟨⟨"t", "2", "10.0.0.2", 81⟩, 0, 9⟩])]
    ⟨"s", "1", "10.0.0.1", 80⟩ 99 4 ⟨⟨"s", "1", "10.0.0.1", 80⟩, 0, 9⟩ (by decide)
  refine ⟨h.1 "t" (by decide), ?_⟩
  obtain ⟨i, hi, hget, hm2, heq⟩ := h.2
  rw [heq]
  cases i with
  | zero => decide
  | succ i2 =>
      exfalso
      clear hget
      have hlen : (regsFor [("s", [⟨⟨"s", "1", "10.0.0.1", 80⟩, 0, 9⟩]),
          ("t", [⟨⟨"t", "2", "10.0.0.2", 81⟩, 0, 9⟩])] "s").length = 1 := by decide
      rw [hlen] at hi
      omega

/-! ### Claim C2 -/

theorem dupFreeRegs_nodup_map {regs : List apiRegistration}
    (h : dupFreeRegs regs) : (regs.map (fun r => r.api)).Nodup := by
  unfold dupFreeRegs at h
  exact h.imp (fun hab => (apiMatches_eq_false_iff _ _).mp hab)

theorem foldl_active_append (now : Int) (l : List apiRegistration) :
    ∀ acc : List Api,
      l.foldl (fun apis r =>
        if now < r.timeRegistered + r.lifeSpan then apis ++ [r.api] else apis) acc =
      acc ++ (l.filter (fun r => decide (now < r.timeRegistered + r.lifeSpan))).map
        (fun r => r.api) := by
  induction l with
  | nil =>
      intro acc
      simp
  | cons r rs ih =>
      intro acc
      by_cases h : now < r.timeRegistered + r.lifeSpan
      · simp [List.foldl_cons, h, List.filter_cons, ih]
      · simp [List.foldl_cons, h, List.filter_cons, ih]

/-- C2: `GetApisByApiName(name)` at query time `now` returns exactly the
Apis of the stored registrations of that name satisfying
`timeRegistered + lifeSpan > now`, in insertion order (the filter keeps the
slice order); the result is empty when the name is absent from the map or
when every entry of the name is expired; and, in a duplicate-free slice, a
registration whose expiry instant has passed is never returned even though
it is still stored (the query itself removes nothing: it is a pure read of
the map). -/
theorem getApisByApiName_spec (m : RemoteMap) (name : String) (now : Int) :
    getApisByApiName m name now =
      ((regsFor m name).filter
        (fun r => decide (now < r.timeRegistered + r.lifeSpan))).map (fun r => r.api) ∧
    (lookupKey m name = none → getApisByApiName m name now = []) ∧
    ((∀ r ∈ regsFor m name, r.timeRegistered + r.lifeSpan ≤ now) →
      getApisByApiName m name now = []) ∧
    (dupFreeRegs (regsFor m name) →
      ∀ r ∈ regsFor m name, r.timeRegistered + r.lifeSpan ≤ now →
        r.api ∉ getApisByApiName m name now) := by
  have hchar : getApisByApiName m name now =
      ((regsFor m name).filter
        (fun r => decide (now < r.timeRegistered + r.lifeSpan))).map (fun r => r.api) := by
    unfold getApisByApiName
    simpa using foldl_active_append now (regsFor m name) []
  refine ⟨hchar, ?_, ?_, ?_⟩
  · intro h
    rw [hchar]
    simp [regsFor, h]
  · intro h
    rw [hchar]
    have : (regsFor m name).filter
        (fun r => decide (now < r.timeRegistered + r.lifeSpan)) = [] := by
      rw [List.filter_eq_nil_iff]
      intro r hr
      simpa using not_lt.mpr (h r hr)
    rw [this]
    rfl
  · intro hdup r hr hexp hmem
    rw [hchar] at hmem
    obtain ⟨x, hx, hxa⟩ := List.mem_map.mp hmem
    have hxf := List.mem_filter.mp hx
    have hxr : x = r :=
      List.inj_on_of_nodup_map (dupFreeRegs_nodup_map hdup) hxf.1 hr hxa
    subst hxr
    have : now < x.timeRegistered + x.lifeSpan := by simpa using hxf.2
    omega

/-- Witness for C2 at a concrete input: with one expired and one active
registration under "s", the query at time 10 returns exactly the active
Api, and the expired registration's Api is not returned. -/
theorem getApisByApiName_spec_witness :
    getApisByApiName
        [("s", [⟨⟨"s", "1", "10.0.0.1", 1⟩, 0, 5⟩, ⟨⟨"s", "2", "10.0.0.1", 2⟩, 0, 20⟩])]
        "s" 10 = [⟨"s", "2", "10.0.0.1", 2⟩] ∧
    (⟨"s", "1", "10.0.0.1", 1⟩ : Api) ∉ getApisByApiName
        [("s", [⟨⟨"s", "1", "10.0.0.1", 1⟩, 0, 5⟩, ⟨⟨"s", "2", "10.0.0.1", 2⟩, 0, 20⟩])]
        "s" 10 := by
  have h := getApisByApiName_spec
    [("s", [⟨⟨"s", "1", "10.0.0.1", 1⟩, 0, 5⟩, ⟨⟨"s", "2", "10.0.0.1", 2⟩, 0, 20⟩])]
    "s" 10
  constructor
  · rw [h.1]
    decide
  · refine h.2.2.2 ?_ ⟨⟨"s", "1", "10.0.0.1", 1⟩, 0, 5⟩ (by decide) (by decide)
    unfold dupFreeRegs
    decide

/-! ### Claim C3: the cleanup sweep -/

/-- What one rebuild of a name's slice at time `now` produces, as a
function of the slice. -/
def sweepOutcome (regs : List apiRegistration) (now : Int) :
    Option (List apiRegistration) :=
  let kept := regs.filter (fun r => decide (now < r.timeRegistered + r.lifeSpan))
  if kept.length > 0 then some kept else none

theorem sweepName_lookup (m : RemoteMap) (name : String) (now : Int) (n : String) :
    lookupKey (sweepName m name now) n =
      if n = name then sweepOutcome (regsFor m name) now else lookupKey m n := by
  by_cases hn : n = name
  · subst hn
    by_cases h : ((regsFor m n).filter
        (fun r => decide (now < r.timeRegistered + r.lifeSpan))).length > 0
    · simp [sweepName, sweepOutcome, h, lookupKey_setKey_self]
    · simp [sweepName, sweepOutcome, h, lookupKey_removeKey_self]
  · by_cases h : ((regsFor m name).filter
        (fun r => decide (now < r.timeRegistered + r.lifeSpan))).length > 0
    · simp only [sweepName, sweepOutcome, h, if_pos, if_neg hn]
      exact lookupKey_setKey_ne m name _ n hn
    · simp only [sweepName, sweepOutcome, h, if_neg, if_neg hn]
      exact lookupKey_removeKey_ne m name n hn

theorem filter_active_idem (now : Int) (l : List apiRegistration) :
    (l.filter (fun r => decide (now < r.timeRegistered + r.lifeSpan))).filter
        (fun r => decide (now < r.timeRegistered + r.lifeSpan)) =
      l.filter (fun r => decide (now < r.timeRegistered + r.lifeSpan)) := by
  rw [List.filter_filter]
  simp

theorem sweepOutcome_stable (m acc : RemoteMap) (now : Int) (n : String)
    (h : lookupKey acc n = sweepOutcome (regsFor m n) now) :
    sweepOutcome (regsFor acc n) now = sweepOutcome (regsFor m n) now := by
  unfold sweepOutcome at h ⊢
  by_cases hl : ((regsFor m n).filter
      (fun r => decide (now < r.timeRegistered + r.lifeSpan))).length > 0
  · rw [if_pos hl] at h
    have hacc : regsFor acc n = (regsFor m n).filter
        (fun r => decide (now < r.timeRegistered + r.lifeSpan)) := by
      rw [regsFor, h]
      rfl
    rw [hacc, filter_active_idem, if_pos hl]
  · rw [if_neg hl] at h
    have hacc : regsFor acc n = [] := by
      rw [regsFor, h]
      rfl
    rw [hacc, if_neg hl]
    simp

/-- Invariant of the rebuild fold: every name's slice is either still the
pre-sweep one or already its post-sweep outcome. -/
def sweepInv (m acc : RemoteMap) (now : Int) : Prop :=
  ∀ n, lookupKey acc n = lookupKey m n ∨
    lookupKey acc n = sweepOutcome (regsFor m n) now

theorem sweepName_preserves (m acc : RemoteMap) (now : Int)
    (hinv : sweepInv m acc now) (name : String) :
    sweepInv m (sweepName acc name now) now ∧
    lookupKey (sweepName acc name now) name =
      sweepOutcome (regsFor m name) now := by
  have hout : sweepOutcome (regsFor acc name) now =
      sweepOutcome (regsFor m name) now := by
    cases hinv name with
    | inl h =>
        have hr : regsFor acc name = regsFor m name := by
          unfold regsFor
          rw [h]
        rw [hr]
    | inr h => exact sweepOutcome_stable m acc now name h
  constructor
  · intro n
    rw [sweepName_lookup acc name now n]
    by_cases hn : n = name
    · subst hn
      rw [if_pos rfl, hout]
      exact Or.inr rfl
    · rw [if_neg hn]
      exact hinv n
  · rw [sweepName_lookup acc name now name, if_pos rfl, hout]

theorem sweepFold (m : RemoteMap) (now : Int) :
    ∀ (L : List apiRegistration) (acc : RemoteMap), sweepInv m acc now →
      sweepInv m (L.foldl (fun a r => sweepName a r.api.name now) acc) now ∧
      (∀ r ∈ L,
        lookupKey (L.foldl (fun a r => sweepName a r.api.name now) acc) r.api.name =
          sweepOutcome (regsFor m r.api.name) now) ∧
      (∀ n, lookupKey acc n = sweepOutcome (regsFor m n) now →
        lookupKey (L.foldl (fun a r => sweepName a r.api.name now) acc) n =
          sweepOutcome (regsFor m n) now) := by
  intro L
  induction L with
  | nil =>
      intro acc hinv
      exact ⟨hinv, by simp, fun n h => h⟩
  | cons r rs ih =>
      intro acc hinv
      have hstep := sweepName_preserves m acc now hinv r.api.name
      obtain ⟨ih1, ih2, ih3⟩ := ih (sweepName acc r.api.name now) hstep.1
      refine ⟨by rw [List.foldl_cons]; exact ih1, ?_, ?_⟩
      · intro x hx
        rw [List.foldl_cons]
        rcases List.mem_cons.mp hx with hx | hx
        · subst hx
          exact ih3 x.api.name hstep.2
        · exact ih2 x hx
      · intro n hn
        rw [List.foldl_cons]
        apply ih3
        rw [sweepName_lookup acc r.api.name now n]
        by_cases h : n = r.api.name
        · subst h
          rw [if_pos rfl]
          exact sweepOutcome_stable m acc now r.api.name hn
        · rw [if_neg h]
          exact hn

theorem foldl_append_flatMap {α β : Type} (g : α → List β) (l : List α) :
    ∀ init : List β,
      l.foldl (fun acc e => acc ++ g e) init = init ++ l.flatMap g := by
  induction l with
  | nil =>
      intro init
      simp
  | cons e es ih =>
      intro init
      simp [List.foldl_cons, ih, List.append_assoc]

theorem mem_findExpiredApiRegs (m : RemoteMap) (now : Int) (r : apiRegistration) :
    r ∈ findExpiredApiRegs m now ↔
      ∃ e ∈ m, r ∈ e.2 ∧ r.timeRegistered + r.lifeSpan < now := by
  unfold findExpiredApiRegs
  rw [foldl_append_flatMap]
  simp [List.mem_flatMap, List.mem_filter, and_assoc]

theorem sweepOutcome_eq_some {regs regs2 : List apiRegistration} {now : Int}
    (h : sweepOutcome regs now = some regs2) :
    regs2 = regs.filter (fun r => decide (now < r.timeRegistered + r.lifeSpan)) ∧
    regs2 ≠ [] := by
  unfold sweepOutcome at h
  by_cases hl : (regs.filter
      (fun r => decide (now < r.timeRegistered + r.lifeSpan))).length > 0
  · rw [if_pos hl] at h
    injection h with h2
    subst h2
    refine ⟨rfl, fun hnil => ?_⟩
    rw [hnil] at hl
    simp at hl
  · rw [if_neg hl] at h
    cases h

/-- C3 counterexample: the claim "after one sweep at time now the remote
map contains only registrations active at now, and a name whose
registrations were all expired is removed" is false at the boundary.  With
one registration whose expiry instant equals `now` exactly
(`timeRegistered + lifeSpan = 0 + 5 = 5 = now`), the sweep at `now = 5`
leaves the map unchanged: the registration is not active
(`¬ 5 < 0 + 5`) yet survives, and the name "a", all of whose
registrations are expired (inactive), is not removed. -/
theorem cleanupSweep_boundary_counterexample :
    cleanupSweep [("a", [⟨⟨"a", "1", "10.0.0.1", 80⟩, 0, 5⟩])] 5 =
      [("a", [⟨⟨"a", "1", "10.0.0.1", 80⟩, 0, 5⟩])] ∧
    lookupKey (cleanupSweep [("a", [⟨⟨"a", "1", "10.0.0.1", 80⟩, 0, 5⟩])] 5) "a" =
      some [⟨⟨"a", "1", "10.0.0.1", 80⟩, 0, 5⟩] ∧
    ¬ ((5 : Int) < 0 + 5) := by
  decide

/-- C3 (amended): after one cleanup sweep executed at time `now`, every
registration remaining in the remote map satisfies
`now ≤ timeRegistered + lifeSpan` (a registration whose expiry instant
equals `now` exactly may survive although it is no longer active); every
surviving name's slice is non-empty; any name all of whose registrations
satisfy `timeRegistered + lifeSpan < now` (strictly expired) is removed
from the map entirely; and no active registration is removed.  The
hypotheses are the reachable-store invariants: every stored slice is
non-empty and every registration sits under its own Api's name. -/
theorem cleanupSweep_spec (m : RemoteMap) (now : Int)
    (hne : ∀ n regs, lookupKey m n = some regs → regs ≠ [])
    (hkey : ∀ n regs, lookupKey m n = some regs → ∀ r ∈ regs, r.api.name = n) :
    (∀ n regs, lookupKey (cleanupSweep m now) n = some regs →
        ∀ r ∈ regs, now ≤ r.timeRegistered + r.lifeSpan) ∧
    (∀ n regs, lookupKey (cleanupSweep m now) n = some regs → regs ≠ []) ∧
    (∀ n regs, lookupKey m n = some regs →
        (∀ r ∈ regs, r.timeRegistered + r.lifeSpan < now) →
        lookupKey (cleanupSweep m now) n = none) ∧
    (∀ n regs, lookupKey m n = some regs → ∀ r ∈ regs,
        now < r.timeRegistered + r.lifeSpan →
        ∃ regs2, lookupKey (cleanupSweep m now) n = some regs2 ∧ r ∈ regs2) := by
  have hinv0 : sweepInv m m now := fun n => Or.inl rfl
  have hfold := sweepFold m now (findExpiredApiRegs m now) m hinv0
  have hcy : cleanupSweep m now =
      (findExpiredApiRegs m now).foldl (fun a r => sweepName a r.api.name now) m := rfl
  refine ⟨?_, ?_, ?_, ?_⟩
  · intro n regs hlook r hr
    by_contra hlt
    push_neg at hlt
    rw [hcy] at hlook
    cases hfold.1 n with
    | inr h =>
        rw [hlook] at h
        obtain ⟨hfil, _⟩ := sweepOutcome_eq_some h.symm
        rw [hfil] at hr
        have := (List.mem_filter.mp hr).2
        simp at this
        omega
    | inl h =>
        rw [hlook] at h
        have hlm : lookupKey m n = some regs := h.symm
        have hexp : r ∈ findExpiredApiRegs m now := by
          rw [mem_findExpiredApiRegs]
          exact ⟨(n, regs), lookupKey_mem hlm, hr, by omega⟩
        have hname : r.api.name = n := hkey n regs hlm r hr
        have h2 := hfold.2.1 r hexp
        rw [hname, hlook] at h2
        obtain ⟨hfil, _⟩ := sweepOutcome_eq_some h2.symm
        have hreq : regsFor m n = regs := by
          unfold regsFor
          rw [hlm]
          rfl
        rw [hreq] at hfil
        have : r ∈ regs.filter
            (fun r => decide (now < r.timeRegistered + r.lifeSpan)) := by
          rw [← hfil]
          exact hr
        have := (List.mem_filter.mp this).2
        simp at this
        omega
  · intro n regs hlook
    rw [hcy] at hlook
    cases hfold.1 n with
    | inl h =>
        rw [hlook] at h
        exact hne n regs h.symm
    | inr h =>
        rw [hlook] at h
        exact (sweepOutcome_eq_some h.symm).2
  · intro n regs hlm hall
    obtain ⟨r, hr⟩ := List.exists_mem_of_ne_nil _ (hne n regs hlm)
    have hexp : r ∈ findExpiredApiRegs m now := by
      rw [mem_findExpiredApiRegs]
      exact ⟨(n, regs), lookupKey_mem hlm, hr, hall r hr⟩
    have hname : r.api.name = n := hkey n regs hlm r hr
    have h2 := hfold.2.1 r hexp
    rw [hname, ← hcy] at h2
    rw [h2]
    have hreq : regsFor m n = regs := by
      unfold regsFor
      rw [hlm]
      rfl
    unfold sweepOutcome
    rw [hreq]
    have hfil : regs.filter
        (fun r => decide (now < r.timeRegistered + r.lifeSpan)) = [] := by
      rw [List.filter_eq_nil_iff]
      intro x hx
      have := hall x hx
      simp
      omega
    rw [hfil]
    simp
  · intro n regs hlm r hr hact
    have hreq : regsFor m n = regs := by
      unfold regsFor
      rw [hlm]
      rfl
    rw [hcy]
    cases hfold.1 n with
    | inl h =>
        rw [h, hlm]
        exact ⟨regs, rfl, hr⟩
    | inr h =>
        rw [h]
        unfold sweepOutcome
        rw [hreq]
        have hrk : r ∈ regs.filter
            (fun r => decide (now < r.timeRegistered + r.lifeSpan)) := by
          rw [List.mem_filter]
          exact ⟨hr, by simpa using hact⟩
        have hlen : (regs.filter
            (fun r => decide (now < r.timeRegistered + r.lifeSpan))).length > 0 :=
          List.length_pos.mpr (List.ne_nil_of_mem hrk)
        rw [if_pos hlen]
        exact ⟨_, rfl, hrk⟩

/-- The concrete one-entry store used by the C3 witness: a single
registration under "a" that is strictly expired at time 10. -/
def c3WitnessMap : RemoteMap := [("a", [⟨⟨"a", "1", "10.0.0.1", 80⟩, 0, 3⟩])]

/-- Witness for the amended C3 at a concrete input: a name whose single
registration is strictly expired (0 + 3 < 10) is removed entirely by the
sweep at time 10. -/
theorem cleanupSweep_spec_witness :
    lookupKey (cleanupSweep c3WitnessMap 10) "a" = none := by
  have hne : ∀ n regs, lookupKey c3WitnessMap n = some regs → regs ≠ [] := by
    intro n regs h
    rw [show lookupKey c3WitnessMap n =
        if "a" = n then some [⟨⟨"a", "1", "10.0.0.1", 80⟩, 0, 3⟩] else none from rfl] at h
    by_cases hn : "a" = n
    · rw [if_pos hn] at h
      injection h with h2
      rw [← h2]
      simp
    · rw [if_neg hn] at h
      cases h
  have hkey : ∀ n regs, lookupKey c3WitnessMap n = some regs →
      ∀ r ∈ regs, r.api.name = n := by
    intro n regs h r hrm
    rw [show lookupKey c3WitnessMap n =
        if "a" = n then some [⟨⟨"a", "1", "10.0.0.1", 80⟩, 0, 3⟩] else none from rfl] at h
    by_cases hn : "a" = n
    · rw [if_pos hn] at h
      injection h with h2
      rw [← h2] at hrm
      rw [← hn]
      simp at hrm
      rw [hrm]
    · rw [if_neg hn] at h
      cases h
  exact (cleanupSweep_spec c3WitnessMap 10 hne hkey).2.2.1 "a"
    [⟨⟨"a", "1", "10.0.0.1", 80⟩, 0, 3⟩] rfl (by decide)

/-! ### Claims C4, C5, C6: RegisterApi -/

/-- C4: on a first-time registration (non-empty name and version, name not
yet owned) `RegisterApi` records ownership if and only if the immediate
send succeeds: on send success the owned map gains exactly the entry
`(name, version, port)` (other names and the remote map untouched) and the
call returns nil; on send failure the send error is returned to the caller
and the whole state is unchanged, so a later call with the same name will
attempt the send again. -/
theorem registerApi_first_time (env : SendEnv) (s : RegistryState)
    (name version : String) (port : Int)
    (hn : name ≠ "") (hv : version ≠ "")
    (hown : lookupKey s.ownedRegs name = none) :
    ((sendApiRegistration env name version port).1 = none →
      (RegisterApi env s name version port).2.1 = none ∧
      (RegisterApi env s name version port).1.apiRegs = s.apiRegs ∧
      lookupKey (RegisterApi env s name version port).1.ownedRegs name =
        some ⟨name, version, port⟩ ∧
      (∀ n, n ≠ name →
        lookupKey (RegisterApi env s name version port).1.ownedRegs n =
          lookupKey s.ownedRegs n)) ∧
    (∀ e, (sendApiRegistration env name version port).1 = some e →
      RegisterApi env s name version port =
        (s, some e, (sendApiRegistration env name version port).2)) := by
  have hownb : ownsApi s name = false := by
    unfold ownsApi
    rw [hown]
    rfl
  have hreg : RegisterApi env s name version port =
      match (sendApiRegistration env name version port).1 with
      | none =>
          ({ s with ownedRegs := setKey s.ownedRegs name ⟨name, version, port⟩ },
            none, (sendApiRegistration env name version port).2)
      | some e => (s, some e, (sendApiRegistration env name version port).2) := by
    unfold RegisterApi
    rw [if_neg hn, if_neg hv]
    simp only [hownb, Bool.false_eq_true, if_false]
  constructor
  · intro hsend
    rw [hreg, hsend]
    refine ⟨rfl, rfl, ?_, ?_⟩
    · exact lookupKey_setKey_self s.ownedRegs name ⟨name, version, port⟩
    · intro n hnn
      exact lookupKey_setKey_ne s.ownedRegs name ⟨name, version, port⟩ n hnn
  · intro e hsend
    rw [hreg, hsend]

/-- Witness for C4 at a concrete input: with a send environment in which
every network step succeeds, a first registration of "s" records ownership
of exactly ("s", "1", 80). -/
theorem registerApi_first_time_witness :
    lookupKey (RegisterApi ⟨none, none, 10, none⟩ ⟨[], []⟩ "s" "1" 80).1.ownedRegs
      "s" = some ⟨"s", "1", 80⟩ := by
  have h := registerApi_first_time ⟨none, none, 10, none⟩ ⟨[], []⟩ "s" "1" 80
    (by decide) (by decide) rfl
  exact (h.1 rfl).2.2.1

/-- C5: when `name` is already present in the owned map, `RegisterApi`
with any non-empty version and any port returns nil, performs no socket
write, leaves the whole state (both maps) unchanged, keeps the
first-registered owned entry for the name even if the new version differs,
and preserves the one-entry-per-name property of the owned map. -/
theorem registerApi_already_owned (env : SendEnv) (s : RegistryState)
    (name version : String) (port : Int) (o : ownedApi)
    (hn : name ≠ "") (hv : version ≠ "")
    (hown : lookupKey s.ownedRegs name = some o) :
    RegisterApi env s name version port = (s, none, false) ∧
    lookupKey (RegisterApi env s name version port).1.ownedRegs name = some o ∧
    ((s.ownedRegs.map Prod.fst).Nodup →
      ((RegisterApi env s name version port).1.ownedRegs.map Prod.fst).Nodup) := by
  have hownb : ownsApi s name = true := by
    unfold ownsApi
    rw [hown]
    rfl
  have heq : RegisterApi env s name version port = (s, none, false) := by
    unfold RegisterApi
    rw [if_neg hn, if_neg hv]
    simp [hownb]
  refine ⟨heq, ?_, ?_⟩
  · rw [heq]
    exact hown
  · rw [heq]
    exact fun h => h

/-- Witness for C5 at a concrete input: re-registering owned name "s" with
a different version ("2") and port returns nil, sends nothing, and keeps
the original owned entry ("s", "1", 80). -/
theorem registerApi_already_owned_witness :
    RegisterApi ⟨none, none, 10, none⟩ ⟨[], [("s", ⟨"s", "1", 80⟩)]⟩ "s" "2" 99 =
      (⟨[], [("s", ⟨"s", "1", 80⟩)]⟩, none, false) :=
  (registerApi_already_owned ⟨none, none, 10, none⟩ ⟨[], [("s", ⟨"s", "1", 80⟩)]⟩
    "s" "2" 99 ⟨"s", "1", 80⟩ (by decide) (by decide) rfl).1

/-- C6: `RegisterApi` with an empty name fails synchronously with the
name-required error, and with an empty version fails synchronously with
an error; in both cases no socket write happens and the state (both maps)
is unchanged. -/
theorem registerApi_invalid_args (env : SendEnv) (s : RegistryState)
    (name version : String) (port : Int) :
    RegisterApi env s "" version port =
      (s, some "name was empty and name is a required parameter", false) ∧
    (RegisterApi env s name "" port).1 = s ∧
    (RegisterApi env s name "" port).2.1.isSome = true ∧
    (RegisterApi env s name "" port).2.2 = false := by
  have hname : RegisterApi env s "" version port =
      (s, some "name was empty and name is a required parameter", false) := by
    unfold RegisterApi
    rw [if_pos rfl]
  have hver : RegisterApi env s name "" port =
      if name = "" then
        (s, some "name was empty and name is a required parameter", false)
      else (s, some "version was empty and version is a required parameter", false) := by
    unfold RegisterApi
    by_cases hn : name = "" <;> simp [hn]
  refine ⟨hname, ?_, ?_, ?_⟩ <;> rw [hver] <;> by_cases hn : name = "" <;> simp [hn]

/-! ### Claim C7: oversized encoded announcements -/

/-- C7: when the dial and the JSON encode succeed but the encoded buffer
exceeds `RegistrationMessageSizeBytes` (1400), `sendApiRegistration`
returns the size error naming the offending name and version and the
socket write is never reached: nothing is transmitted, truncated or
otherwise. -/
theorem sendApiRegistration_too_large (env : SendEnv) (name version : String)
    (port : Int) (hdial : env.dialErr = none) (henc : env.encodeErr = none)
    (hlen : env.encodedLen > RegistrationMessageSizeBytes) :
    sendApiRegistration env name version port =
      (some (messageTooLargeErr name version), false) := by
  unfold sendApiRegistration
  rw [hdial]
  dsimp only
  rw [henc]
  dsimp only
  rw [if_pos hlen]

/-- Witness for C7 at a concrete input: a 1401-byte encoding is rejected
with the size error for ("search", "1.0") and no write happens. -/
theorem sendApiRegistration_too_large_witness :
    sendApiRegistration ⟨none, none, 1401, none⟩ "search" "1.0" 8080 =
      (some (messageTooLargeErr "search" "1.0"), false) :=
  sendApiRegistration_too_large ⟨none, none, 1401, none⟩ "search" "1.0" 8080
    rfl rfl (by decide)

/-! ### Claim C8: lock discipline

The registry state is guarded by two reader/writer locks
(`apisRWMutex` for `apiRegs`, `ownedRegsRWMutex` for `ownedRegs`).  Each
operation's sequence of `RLock`/`RUnlock`/`Lock`/`Unlock` calls is
transcribed from the source in program order, parameterised by the
branches that decide whether a lock is taken at all. -/

/-- The two reader/writer locks of `multicastApiRegistry`. -/
inductive LockId where
  | apis
  | owned
  deriving DecidableEq, Repr

/-- One lock operation issued by the code: `RLock`, `RUnlock`, `Lock` or
`Unlock` on one of the two locks. -/
inductive LockEv where
  | rLock (l : LockId)
  | rUnlock (l : LockId)
  | wLock (l : LockId)
  | wUnlock (l : LockId)
  deriving DecidableEq, Repr

def lockOf : LockEv → LockId
  | .rLock l => l
  | .rUnlock l => l
  | .wLock l => l
  | .wUnlock l => l

def isWrite : LockEv → Bool
  | .wLock _ => true
  | .wUnlock _ => true
  | _ => false

def lockDelta (l : LockId) (e : LockEv) : Int :=
  if lockOf e = l then
    match e with
    | .rLock _ => 1
    | .wLock _ => 1
    | .rUnlock _ => -1
    | .wUnlock _ => -1
  else 0

/-- Outstanding holds of lock `l` after the events `tr`. -/
def heldAfter (tr : List LockEv) (l : LockId) : Int :=
  (tr.map (lockDelta l)).sum

/-- No prefix of the trace holds both locks at once. -/
def neverBothHeld (tr : List LockEv) : Bool :=
  tr.inits.all (fun p =>
    !(decide (0 < heldAfter p LockId.apis) && decide (0 < heldAfter p LockId.owned)))

/-- The trace performs no write acquisition or release. -/
def readsOnly (tr : List LockEv) : Bool := tr.all (fun e => !(isWrite e))

/-- Lock operations of `ownsApi`. -/
def ownsApiTrace : List LockEv := [.rLock .owned, .rUnlock .owned]

/-- Lock operations of `RegisterApi`: none when name or version is empty;
otherwise those of `ownsApi`, then — when the name is not owned and the
send succeeded — the owned map's write lock around the insert. -/
def RegisterApiTrace (emptyArg owned sendOk : Bool) : List LockEv :=
  if emptyArg then []
  else ownsApiTrace ++
    (if owned then []
     else if sendOk then [.wLock .owned, .wUnlock .owned] else [])

/-- Lock operations of `GetApisByApiName`. -/
def GetApisByApiNameTrace : List LockEv := [.rLock .apis, .rUnlock .apis]

/-- Lock operations of `GetAvailableApis` over a map with `numNames` keys:
the outer read lock, one nested `GetApisByApiName` per key, the outer read
unlock. -/
def GetAvailableApisTrace (numNames : Nat) : List LockEv :=
  [LockEv.rLock .apis] ++
    (List.replicate numNames GetApisByApiNameTrace).flatten ++
    [LockEv.rUnlock .apis]

/-- Lock operations of `processRegResends` (the resend loop body). -/
def processRegResendsTrace : List LockEv := [.rLock .owned, .rUnlock .owned]

/-- Lock operations of `findExpiredApiRegs`. -/
def findExpiredApiRegsTrace : List LockEv := [.rLock .apis, .rUnlock .apis]

/-- Lock operations of one `cleanupExpiredRegLoop` tick:
`findExpiredApiRegs`, then — when something expired — the apis write lock
around the rebuild. -/
def cleanupIterTrace (anyExpired : Bool) : List LockEv :=
  findExpiredApiRegsTrace ++
    (if anyExpired then [LockEv.wLock .apis, LockEv.wUnlock .apis] else [])

/-- Lock operations of `updateApis`. -/
def updateApisTrace : List LockEv := [.wLock .apis, .wUnlock .apis]

/-- Lock operations of one `listenMutlicast` iteration: those of
`updateApis` when a datagram was received and decoded, none otherwise. -/
def listenIterTrace (decoded : Bool) : List LockEv :=
  if decoded then updateApisTrace else []

theorem getAvailableApisTrace_mem (n : Nat) :
    ∀ e ∈ GetAvailableApisTrace n,
      e = LockEv.rLock .apis ∨ e = LockEv.rUnlock .apis := by
  intro e he
  have hf : ∀ x ∈ (List.replicate n GetApisByApiNameTrace).flatten,
      x ∈ GetApisByApiNameTrace := by
    intro x hx
    obtain ⟨l, hl, hxl⟩ := List.mem_flatten.mp hx
    rw [(List.mem_replicate.mp hl).2] at hxl
    exact hxl
  unfold GetAvailableApisTrace at he
  rcases List.mem_append.mp he with h1 | h1
  · rcases List.mem_append.mp h1 with h2 | h2
    · exact Or.inl (List.mem_singleton.mp h2)
    · rcases List.mem_cons.mp (hf e h2) with h3 | h3
      · exact Or.inl h3
      · exact Or.inr (List.mem_singleton.mp h3)
  · exact Or.inr (List.mem_singleton.mp h1)

theorem neverBothHeld_of_apis_only (tr : List LockEv)
    (h : ∀ e ∈ tr, lockOf e = LockId.apis) : neverBothHeld tr = true := by
  unfold neverBothHeld
  rw [List.all_eq_true]
  intro p hp
  have hpre : p <+: tr := by simpa [List.mem_inits] using hp
  have hz : heldAfter p LockId.owned = 0 := by
    unfold heldAfter
    apply List.sum_eq_zero
    intro x hx
    obtain ⟨e, he, rfl⟩ := List.mem_map.mp hx
    have hl := h e (hpre.subset he)
    simp [lockDelta, hl]
  simp [hz]

/-- C8: no operation of the registry ever holds the remote map's lock and
the owned map's lock at the same time (in fact no operation even uses both
locks), so no lock-ordering deadlock is possible among the query
operations and the three background loops; and the two query operations
acquire their map's lock only in read mode, so under reader/writer lock
semantics they may run concurrently with each other while excluding that
map's writers. -/
theorem lock_discipline_spec :
    (∀ b1 b2 b3 : Bool, neverBothHeld (RegisterApiTrace b1 b2 b3) = true) ∧
    neverBothHeld ownsApiTrace = true ∧
    neverBothHeld GetApisByApiNameTrace = true ∧
    (∀ n : Nat, neverBothHeld (GetAvailableApisTrace n) = true) ∧
    neverBothHeld processRegResendsTrace = true ∧
    neverBothHeld findExpiredApiRegsTrace = true ∧
    (∀ b : Bool, neverBothHeld (cleanupIterTrace b) = true) ∧
    neverBothHeld updateApisTrace = true ∧
    (∀ b : Bool, neverBothHeld (listenIterTrace b) = true) ∧
    readsOnly GetApisByApiNameTrace = true ∧
    (∀ n : Nat, readsOnly (GetAvailableApisTrace n) = true) := by
  refine ⟨by decide, by decide, by decide, ?_, by decide, by decide, by decide,
    by decide, by decide, by decide, ?_⟩
  · intro n
    refine neverBothHeld_of_apis_only _ (fun e he => ?_)
    rcases getAvailableApisTrace_mem n e he with h2 | h2 <;> subst h2 <;> rfl
  · intro n
    unfold readsOnly
    rw [List.all_eq_true]
    intro e he
    rcases getAvailableApisTrace_mem n e he with h2 | h2 <;> subst h2 <;> rfl

/-! ### Claim C10: the listener performs no validation -/

theorem mem_getAvailableApis_of (m : RemoteMap) (now : Int) (n : String)
    (a : Api) (regs : List apiRegistration) (hregs : lookupKey m n = some regs)
    (ha : a ∈ getApisByApiName m n now) : a ∈ getAvailableApis m now := by
  unfold getAvailableApis
  rw [foldl_append_flatMap]
  simp only [List.nil_append, List.mem_flatMap]
  exact ⟨(n, regs), lookupKey_mem hregs, ha⟩

/-- C10: one listener iteration inserts every successfully decoded
announcement into the remote map with no validation of the decoded fields:
even with an empty name, an empty version or a non-positive port, the Api
built from the message and the sender's source IP is stored (here: first
sighting of the 4-tuple), and while it is active it is returned by both
`GetApisByApiName` and `GetAvailableApis`. -/
theorem listen_no_validation (m : RemoteMap) (message : apiRegisterMessageJSON)
    (senderIP : String) (now now2 : Int)
    (hfresh : getRegMatch
      ⟨message.ApiName, message.ApiVersion, senderIP, message.ApiPort⟩
      (regsFor m message.ApiName) = none)
    (hactive : now2 < now + message.LifeSpan) :
    (⟨⟨message.ApiName, message.ApiVersion, senderIP, message.ApiPort⟩, now,
        message.LifeSpan⟩ : apiRegistration) ∈
      regsFor (listenMutlicastIter m false senderIP (some message) now)
        message.ApiName ∧
    (⟨message.ApiName, message.ApiVersion, senderIP, message.ApiPort⟩ : Api) ∈
      getApisByApiName (listenMutlicastIter m false senderIP (some message) now)
        message.ApiName now2 ∧
    (⟨message.ApiName, message.ApiVersion, senderIP, message.ApiPort⟩ : Api) ∈
      getAvailableApis (listenMutlicastIter m false senderIP (some message) now)
        now2 := by
  have hli : listenMutlicastIter m false senderIP (some message) now =
      updateApis m ⟨message.ApiName, message.ApiVersion, senderIP, message.ApiPort⟩
        message.LifeSpan now := rfl
  have happ := updateApis_regsFor_none m
    ⟨message.ApiName, message.ApiVersion, senderIP, message.ApiPort⟩
    message.LifeSpan now hfresh
  dsimp only at happ
  have hmem1 : (⟨⟨message.ApiName, message.ApiVersion, senderIP, message.ApiPort⟩,
      now, message.LifeSpan⟩ : apiRegistration) ∈
      regsFor (listenMutlicastIter m false senderIP (some message) now)
        message.ApiName := by
    rw [hli, happ]
    exact List.mem_append_right _ (List.mem_singleton_self _)
  have hmem2 : (⟨message.ApiName, message.ApiVersion, senderIP, message.ApiPort⟩ :
      Api) ∈
      getApisByApiName (listenMutlicastIter m false senderIP (some message) now)
        message.ApiName now2 := by
    have hc : getApisByApiName
        (listenMutlicastIter m false senderIP (some message) now)
        message.ApiName now2 =
        ((regsFor (listenMutlicastIter m false senderIP (some message) now)
            message.ApiName).filter
          (fun r => decide (now2 < r.timeRegistered + r.lifeSpan))).map
          (fun r => r.api) := by
      unfold getApisByApiName
      simpa using foldl_active_append now2
        (regsFor (listenMutlicastIter m false senderIP (some message) now)
          message.ApiName) []
    rw [hc]
    refine List.mem_map.mpr
      ⟨⟨⟨message.ApiName, message.ApiVersion, senderIP, message.ApiPort⟩, now,
        message.LifeSpan⟩, List.mem_filter.mpr ⟨hmem1, ?_⟩, rfl⟩
    simpa using hactive
  refine ⟨hmem1, hmem2, ?_⟩
  cases hlk : lookupKey (listenMutlicastIter m false senderIP (some message) now)
      message.ApiName with
  | none =>
      exfalso
      have hempty : regsFor (listenMutlicastIter m false senderIP (some message) now)
          message.ApiName = [] := by
        unfold regsFor
        rw [hlk]
        rfl
      rw [hempty] at hmem1
      cases hmem1
  | some regs =>
      exact mem_getAvailableApis_of _ now2 message.ApiName _ regs hlk hmem2

/-- Witness for C10 at a concrete input: a decoded message with empty name,
empty version and negative port (-1) is stored and returned by
`GetApisByApiName ""` while active. -/
theorem listen_no_validation_witness :
    (⟨"", "", "10.1.2.3", -1⟩ : Api) ∈
      getApisByApiName
        (listenMutlicastIter [] false "10.1.2.3" (some ⟨"", "", -1, 100⟩) 0)
        "" 50 := by
  have h := listen_no_validation [] ⟨"", "", -1, 100⟩ "10.1.2.3" 0 50 rfl (by decide)
  exact h.2.1

end GoApiRegistry
